import Mathlib

/-!
Verification development for the tmux command-runner repository.

The sanitizer of `src/archived/test.py` (`clean_output`) is a Python-regex
substitution; we embed it as a character-level backtracking matcher over an
atom list that mirrors the pattern the source builds with `_word_to_regex`,
`re.escape` and string concatenation.  The live line-based sanitizer
`TmuxTerminal.capture_clean_output` of `src/tmux_cmd_runner.py` is embedded
as a recursion over the captured lines.  All functions are fuelled and
structurally recursive so that concrete transcripts evaluate by `decide`.
-/

set_option maxRecDepth 100000

namespace LlmAuto

/-- Python `\s` character class (`str.strip` uses the same set for our inputs). -/
def pyIsSpace (c : Char) : Bool :=
  c == ' ' || c == '\t' || c == '\n' || c == '\r' || c == '\x0b' || c == '\x0c'

/-- Leading-whitespace drop, the front half of Python `str.strip`. -/
def lstripL (l : List Char) : List Char := l.dropWhile pyIsSpace

/-- Trailing-whitespace drop, Python `str.rstrip`. -/
def rstripL (l : List Char) : List Char := (l.reverse.dropWhile pyIsSpace).reverse

/-- Python `str.strip`: drop whitespace at both ends. -/
def stripL (l : List Char) : List Char := rstripL (lstripL l)

/-- Split a character list at every occurrence of `sep` (Python `str.split(sep)`). -/
def splitOnChar (sep : Char) : List Char → List (List Char)
  | [] => [[]]
  | c :: rest =>
    if c == sep then [] :: splitOnChar sep rest
    else
      match splitOnChar sep rest with
      | [] => [[c]]
      | piece :: pieces => (c :: piece) :: pieces

/-- Join pieces with a newline character (Python `'\n'.join`). -/
def joinNlL : List (List Char) → List Char
  | [] => []
  | [piece] => piece
  | piece :: pieces => piece ++ '\n' :: joinNlL pieces

/-- Atoms of the compiled pattern of `archived/test.py`:
literal characters, `\s*`, a lazy DOTALL `.*?`, the greedy `[\s\d]*`,
the MULTILINE `^` anchor, and the two boundaries of capture group 2. -/
inductive Atom where
  | lit : Char → Atom
  | ws : Atom
  | lazy : Atom
  | wsd : Atom
  | bol : Atom
  | g2open : Atom
  | g2close : Atom
deriving DecidableEq

/-- `_word_to_regex`: the characters of a keyword with `\s*` between each pair. -/
def wordAtoms (w : List Char) : List Atom :=
  (w.map Atom.lit).intersperse Atom.ws

/-- The `command_part` pattern of `clean_output`:
`;\s*` echo `\s*"\s*` TMUX_CMD_EXIT_CODE_ `.*?:\$\?"\s*;\s*\s*` tmux `\s*\s*`
wait-for `\s*-S\s*".*?"` (keywords whitespace-tolerant via `wordAtoms`). -/
def commandAtoms : List Atom :=
  [.lit ';', .ws] ++ wordAtoms "echo".data
    ++ [.ws, .lit '"', .ws] ++ wordAtoms "TMUX_CMD_EXIT_CODE_".data
    ++ [.lazy, .lit ':', .lit '$', .lit '?', .lit '"', .ws, .lit ';', .ws, .ws]
    ++ wordAtoms "tmux".data
    ++ [.ws, .ws] ++ wordAtoms "wait-for".data
    ++ [.ws, .lit '-', .lit 'S', .ws, .lit '"', .lazy, .lit '"']

/-- The `output_part` pattern: `^\s*` TMUX_CMD_EXIT_CODE_ `.*?:[\s\d]*`. -/
def outputAtoms : List Atom :=
  [.bol, .ws] ++ wordAtoms "TMUX_CMD_EXIT_CODE_".data ++ [.lazy, .lit ':', .wsd]

/-- The full `atomic_block_pattern`: group 1 (the epilogue), the lazy capture
group 2 (real output to keep), group 3 (the status line). -/
def atomicBlockAtoms : List Atom :=
  commandAtoms ++ [.g2open, .lazy, .g2close] ++ outputAtoms

/-- Backtracking branch choice with regex priority: the preferred branch wins. -/
def obackup (a : Option α) (b : Unit → Option α) : Option α :=
  match a with
  | some r => some r
  | none => b ()

/-- Backtracking matcher with Python-regex priorities: greedy stars prefer to
consume, the lazy star prefers not to; `bol` consults the previous character
(MULTILINE `^`); `g2open`/`g2close` record the suffix length at the group-2
boundaries.  `fuel` only bounds recursion depth; every use supplies more fuel
than the depth bound `s.length + atoms.length + 2`. -/
def mtch : Nat → List Atom → Option Char → List Char → Option Nat → Option Nat →
    Option (Option Nat × Option Nat × List Char)
  | 0, _, _, _, _, _ => none
  | _ + 1, [], _, s, ga, gb => some (ga, gb, s)
  | f + 1, .lit c :: rest, _, s, ga, gb =>
    match s with
    | [] => none
    | x :: s' => if x == c then mtch f rest (some x) s' ga gb else none
  | f + 1, .ws :: rest, p, s, ga, gb =>
    match s with
    | [] => mtch f rest p [] ga gb
    | x :: s' =>
      if pyIsSpace x then
        obackup (mtch f (Atom.ws :: rest) (some x) s' ga gb)
          (fun _ => mtch f rest p (x :: s') ga gb)
      else mtch f rest p (x :: s') ga gb
  | f + 1, .lazy :: rest, p, s, ga, gb =>
    obackup (mtch f rest p s ga gb)
      (fun _ =>
        match s with
        | [] => none
        | x :: s' => mtch f (Atom.lazy :: rest) (some x) s' ga gb)
  | f + 1, .wsd :: rest, p, s, ga, gb =>
    match s with
    | [] => mtch f rest p [] ga gb
    | x :: s' =>
      if pyIsSpace x || x.isDigit then
        obackup (mtch f (Atom.wsd :: rest) (some x) s' ga gb)
          (fun _ => mtch f rest p (x :: s') ga gb)
      else mtch f rest p (x :: s') ga gb
  | f + 1, .bol :: rest, p, s, ga, gb =>
    if p == none || p == some '\n' then mtch f rest p s ga gb else none
  | f + 1, .g2open :: rest, p, s, _, gb => mtch f rest p s (some s.length) gb
  | f + 1, .g2close :: rest, p, s, ga, _ => mtch f rest p s ga (some s.length)

/-- Fuel that dominates the matcher's recursion depth on suffix `s`. -/
def mfuel (s : List Char) : Nat := s.length + 200

/-- `re.sub` scan: at each position try the atomic block pattern; on a match
emit only the captured group 2 and continue after the match (the matched text
always starts with a literal `;`, so it is nonempty); otherwise keep the
character and advance.  `p` is the character before the current position. -/
def scanSub : Nat → Option Char → List Char → List Char
  | 0, _, s => s
  | f + 1, p, s =>
    match mtch (mfuel s) atomicBlockAtoms p s none none with
    | some (ga, gb, rem) =>
      let g2 :=
        match ga, gb with
        | some a, some b => (s.drop (s.length - a)).take (a - b)
        | _, _ => []
      let consumed := s.take (s.length - rem.length)
      let p' := match consumed.getLast? with
        | some c => some c
        | none => p
      g2 ++ scanSub f p' rem
    | none =>
      match s with
      | [] => []
      | x :: s' => x :: scanSub f (some x) s'

/-- `atomic_block_pattern.sub(r'\2', full_output)` on the joined buffer. -/
def subAtomic (s : List Char) : List Char := scanSub (s.length + 1) none s

/-- `clean_output` of `src/archived/test.py` on the line buffers. -/
def clean_outputL (liness : List (List Char)) : List Char :=
  if liness.isEmpty then [] else stripL (subAtomic (joinNlL liness))

/-- `clean_output(lines_iter)` of `src/archived/test.py`. -/
def clean_output (lines : List String) : String :=
  String.mk (clean_outputL (lines.map String.data))

/-- Scan mirroring `scanSub`'s positions, checking that the epilogue pattern
(`command_part`) matches nowhere; decidable on concrete transcripts. -/
def noEpilogueScan : Nat → Option Char → List Char → Bool
  | 0, _, _ => true
  | f + 1, p, s =>
    if (mtch (mfuel s) commandAtoms p s none none).isSome then false
    else
      match s with
      | [] => true
      | x :: s' => noEpilogueScan f (some x) s'

/-- No syntactically complete injected epilogue occurs anywhere in `s`. -/
def noEpilogueAnywhere (s : List Char) : Bool :=
  noEpilogueScan (s.length + 1) none s

/-- The joined transcript with surrounding whitespace stripped: what
`clean_output` must return when there is nothing to remove. -/
def stripJoin (lines : List String) : String :=
  String.mk (stripL (joinNlL (lines.map String.data)))

/-! `TmuxTerminal.capture_clean_output` of `src/tmux_cmd_runner.py`:
the live line-based sanitizer over the captured pane lines. -/

/-- Python `needle in hay` on strings. -/
def containsSub (needle : List Char) : List Char → Bool
  | [] => needle.isEmpty
  | c :: rest => needle.isPrefixOf (c :: rest) || containsSub needle rest

/-- `line.split(needle)[0]`: the characters before the first occurrence of
`needle` (the whole line when it does not occur; `needle` is nonempty). -/
def takeBeforeFirst (needle : List Char) : List Char → List Char
  | [] => []
  | c :: rest =>
    if needle.isPrefixOf (c :: rest) then []
    else c :: takeBeforeFirst needle rest

/-- The `junk_marker` literal of `capture_clean_output`. -/
def junkMarker : List Char := ";echo \"TMUX_CMD_EXIT_CODE_".data

/-- The exit-code marker prefix. -/
def markerWord : List Char := "TMUX_CMD_EXIT_CODE_".data

/-- The completeness check literal of `capture_clean_output`. -/
def tmuxWaitStr : List Char := "tmux wait-for -S".data

/-- The inner loop consuming wrapped-epilogue remnant lines: drop lines until one
containing a double quote is found, dropping that line as well. -/
def dropThroughQuote : List (List Char) → List (List Char)
  | [] => []
  | l :: ls => if l.contains '"' then ls else dropThroughQuote ls

/-- The main loop of `capture_clean_output`: skip pure status lines, cut the
injected scaffold off command lines (consuming wrapped remnants when the
scaffold did not end on the same line), keep everything else.  Fuel bounds the
number of consumed lines; callers pass the input length. -/
def captureLoop : Nat → List (List Char) → List (List Char)
  | 0, _ => []
  | _ + 1, [] => []
  | f + 1, line :: rest =>
    if markerWord.isPrefixOf (stripL line) && line.contains ':' then
      captureLoop f rest
    else if containsSub junkMarker line then
      let cleanLine := takeBeforeFirst junkMarker line
      let rest' :=
        if containsSub tmuxWaitStr line && ((rstripL line).getLast? == some '"') then rest
        else dropThroughQuote rest
      cleanLine :: captureLoop f rest'
    else line :: captureLoop f rest

/-- Helper of `collapseBlanks` carrying the previous original line. -/
def collapseBlanksGo : List Char → List (List Char) → List (List Char)
  | _, [] => []
  | prev, y :: ys =>
    if (stripL y).isEmpty && (stripL prev).isEmpty then collapseBlanksGo y ys
    else y :: collapseBlanksGo y ys

/-- Final pass of `capture_clean_output`: drop a blank line whose immediately
preceding original line is also blank. -/
def collapseBlanks : List (List Char) → List (List Char)
  | [] => []
  | x :: rest => x :: collapseBlanksGo x rest

/-- `TmuxTerminal.capture_clean_output` on the captured pane lines. -/
def capture_clean_output (lines : List String) : String :=
  let ls := lines.map String.data
  String.mk (stripL (joinNlL (collapseBlanks (captureLoop (ls.length + 1) ls))))

/-! `ExecutionPolicy` of `src/tmux_cmd_runner.py`. -/

/-- The pre-registered rules of the default `ExecutionPolicy` instance, in
insertion order. -/
def policyRules : List (List Char × List Int) :=
  [("grep".data, [0, 1]), ("diff".data, [0, 1])]

/-- `ExecutionPolicy.default_accepted_codes`. -/
def defaultAcceptedCodes : List Int := [0]

/-- The rule-table loop of `ExecutionPolicy.get_accepted_codes`: first rule
whose prefix starts the trimmed command wins; default on fall-through. -/
def lookupAccepted : List (List Char × List Int) → List Char → List Int
  | [], _ => defaultAcceptedCodes
  | (p, codes) :: rest, cmd =>
    if p.isPrefixOf (stripL cmd) then codes else lookupAccepted rest cmd

/-- `ExecutionPolicy.get_accepted_codes` with the default rule table. -/
def get_accepted_codes (cmd : List Char) : List Int :=
  lookupAccepted policyRules cmd

/-! Exit-code recovery of `_execute_str`. -/

/-- Accumulating helper of `digitsVal`. -/
def digitsValGo (acc : Nat) : List Char → Option Nat
  | [] => some acc
  | c :: cs => if c.isDigit then digitsValGo (10 * acc + (c.toNat - '0'.toNat)) cs else none

/-- Digit-string value (`int()` on a pure digit run); `none` on empty or
non-digit input. -/
def digitsVal : List Char → Option Nat
  | [] => none
  | ds => digitsValGo 0 ds

/-- Python `int(s)`: surrounding whitespace and an optional sign around a
nonempty digit run; `none` models `ValueError`. -/
def pyParseInt (s : List Char) : Option Int :=
  match stripL s with
  | '+' :: ds => (digitsVal ds).map Int.ofNat
  | '-' :: ds => (digitsVal ds).map fun n => -(Int.ofNat n)
  | ds => (digitsVal ds).map Int.ofNat

/-- The backward scan of `_execute_str` over the reversed captured lines:
on a line whose trimmed text starts with the marker, try
`int(line.strip().split(':')[1])`; on `IndexError`/`ValueError` continue; if
nothing is found the sentinel `-1` ("unknown") results. -/
def scanExitRev (marker : List Char) : List (List Char) → Int
  | [] => -1
  | line :: rest =>
    if marker.isPrefixOf (stripL line) then
      match ((splitOnChar ':' (stripL line))[1]?).bind pyParseInt with
      | some n => n
      | none => scanExitRev marker rest
    else scanExitRev marker rest

/-- Exit-code recovery of `_execute_str`: scan the transcript from the end
backward. -/
def findExitCode (marker : List Char) (lines : List (List Char)) : Int :=
  scanExitRev marker lines.reverse

/-- The success/escalation decision tail of `_execute_str`: unknown exit code
escalates to the caller's continue/abort choice; an accepted code succeeds; a
rejected code escalates to the caller's choice. -/
def execute_str_decision (cmd : List Char) (marker : List Char)
    (lines : List (List Char)) (choiceUnknown choiceRejected : Bool) : Bool :=
  let ec := findExitCode marker lines
  if ec = -1 then choiceUnknown
  else if (get_accepted_codes cmd).contains ec then true
  else choiceRejected

/-- Whether a trimmed line starts with the marker. -/
def markerStartsLine (marker : List Char) (line : List Char) : Bool :=
  marker.isPrefixOf (stripL line)

/-- The claim's wording of the recovery rule, for comparison: first line from
the end that (trimmed) starts with the marker; parse the integer following the
final colon of that line (requires a colon to be present). -/
def specRecoverFinalColon (marker : List Char) (lines : List (List Char)) : Option Int :=
  (lines.reverse.find? fun line => markerStartsLine marker line).bind fun line =>
    if line.contains ':' then ((splitOnChar ':' line).getLast?).bind pyParseInt
    else none

/-- The amended wording of the recovery rule: first line from the end that
(trimmed) starts with the marker and whose second colon-separated field parses
as an integer yields that integer. -/
def specRecoverSecondField (marker : List Char) (lines : List (List Char)) : Option Int :=
  (lines.reverse.filterMap fun line =>
    if marker.isPrefixOf (stripL line) then
      ((splitOnChar ':' (stripL line))[1]?).bind pyParseInt
    else none).head?

/-! `_execute_list`: ordered batch execution with skip of non-string items. -/

/-- An element of a command batch: a string command, or an element of another
type (skipped by `_execute_list`). -/
inductive BatchItem where
  | str : String → BatchItem
  | nonstr : BatchItem
deriving DecidableEq

/-- `_execute_list`, instrumented with the ordered list of commands actually
dispatched: non-strings are skipped, the first failing command stops the batch
with failure, an exhausted batch succeeds.  `exec1` gives each dispatched
command's outcome. -/
def execute_list_run (exec1 : String → Bool) : List BatchItem → Bool × List String
  | [] => (true, [])
  | BatchItem.nonstr :: rest => execute_list_run exec1 rest
  | BatchItem.str c :: rest =>
    if exec1 c then
      let r := execute_list_run exec1 rest
      (r.1, c :: r.2)
    else (false, [c])

/-! `TmuxTerminal.execute` busy-flag discipline and the relay guard of
`src/receiver.py`. -/

/-- Events of one `TmuxTerminal.execute` call. -/
inductive Ev where
  | setBusy
  | paneClear
  | dispatchCmd
  | saveResult
  | clearBusy
  | rejectBusy
deriving DecidableEq

/-- Control-flow trace of `TmuxTerminal.execute`: returns the event list, the
final `is_running_cmd` flag, and whether an exception propagated.  A busy call
returns immediately; otherwise the flag is set, the pane is cleared (outside
the try block), and the dispatch/save runs inside `try..finally` clearing the
flag on every outcome. -/
def execute_trace (busy0 hasPane paneRaises dispatchRaises saveRaises : Bool) :
    List Ev × Bool × Bool :=
  if busy0 then ([Ev.rejectBusy], busy0, false)
  else
    let pre := Ev.setBusy :: (if hasPane then [Ev.paneClear] else [])
    if hasPane && paneRaises then (pre, true, true)
    else if dispatchRaises then (pre ++ [Ev.dispatchCmd, Ev.clearBusy], false, true)
    else if saveRaises then
      (pre ++ [Ev.dispatchCmd, Ev.saveResult, Ev.clearBusy], false, true)
    else (pre ++ [Ev.dispatchCmd, Ev.saveResult, Ev.clearBusy], false, false)

/-- Reaction of `custom_on_message` in `src/receiver.py` to a decoded command
request. -/
inductive RelayAction where
  | sendFailure
  | spawnExecute
deriving DecidableEq

/-- `custom_on_message`: a request arriving while `is_running_cmd` is set is
answered with the failure reply at once; otherwise a background execute task
is created. -/
def custom_on_message (busy : Bool) : RelayAction :=
  if busy then RelayAction.sendFailure else RelayAction.spawnExecute

/-! `SynchronizationToken` issuance of `_execute_str` /
`TmuxTerminal.__init__`. -/

/-- A synchronization token: the sequence number and the channel/marker names
derived from it. -/
structure SyncToken where
  sequence : Nat
  channel_name : String
  marker_name : String
deriving DecidableEq

/-- Issue one token from the session counter and advance the counter, exactly
as `_execute_str` does before sending the wrapped command. -/
def issue_token (counter : Nat) : SyncToken × Nat :=
  ({ sequence := counter,
     channel_name := "tmux-wait-" ++ toString counter,
     marker_name := "TMUX_CMD_EXIT_CODE_" ++ toString counter }, counter + 1)

/-- The tokens emitted by `n` consecutive dispatches starting from counter
`c0` (the counter starts at 0 in `TmuxTerminal.__init__`). -/
def dispatch_tokens : Nat → Nat → List SyncToken
  | _, 0 => []
  | c0, n + 1 => (issue_token c0).1 :: dispatch_tokens ((issue_token c0).2) n

/-! Concrete transcripts used by the sanitizer claims. -/

/-- The four-line round-trip transcript of spec section 8, literally (its
epilogue writes the signal emission as `wait -S`). -/
def roundTripLiteral : List String :=
  ["prompt echo bbb;echo \"TMUX_CMD_EXIT_CODE_127:$?\";wait -S \"id-123\"",
   "bbb", "TMUX_CMD_EXIT_CODE_127:127", "prompt"]

/-- The same round trip with the signal emission written as the code actually
injects it (`tmux wait-for -S`). -/
def roundTripConcrete : List String :=
  ["prompt echo bbb;echo \"TMUX_CMD_EXIT_CODE_127:$?\";tmux wait-for -S \"id-123\"",
   "bbb", "TMUX_CMD_EXIT_CODE_127:127", "prompt"]

/-- A transcript with two sequential wrapped commands. -/
def multiCommandTranscript : List String :=
  ["p echo 1;echo \"TMUX_CMD_EXIT_CODE_0:$?\";tmux wait-for -S \"id-0\"",
   "1", "TMUX_CMD_EXIT_CODE_0:0",
   "p echo 2;echo \"TMUX_CMD_EXIT_CODE_1:$?\";tmux wait-for -S \"id-1\"",
   "2", "TMUX_CMD_EXIT_CODE_1:1", "p"]

/-- The false-positive transcript of spec section 8: genuine output that
contains the marker keyword without any epilogue. -/
def fpTranscriptLines : List String :=
  ["echo \"A user string: TMUX_CMD_EXIT_CODE_99:99\"",
   "A user string: TMUX_CMD_EXIT_CODE_99:99"]

/-- A one-epilogue transcript with no wrapping. -/
def wrapUnwrapped : List String :=
  ["vvv echo hi;echo \"TMUX_CMD_EXIT_CODE_0:$?\";tmux wait-for -S \"id-0\"",
   "hi", "TMUX_CMD_EXIT_CODE_0:0", "vvv"]

/-- The same transcript with the epilogue split into two physical lines inside
the `echo` keyword. -/
def wrapTwoLines : List String :=
  ["vvv echo hi;e",
   "cho \"TMUX_CMD_EXIT_CODE_0:$?\";tmux wait-for -S \"id-0\"",
   "hi", "TMUX_CMD_EXIT_CODE_0:0", "vvv"]

/-- The same transcript wrapped at many keyword-internal and separator
boundaries, status line included. -/
def wrapManyLines : List String :=
  ["vvv echo hi;ec", "ho \"TMUX_CMD", "_EXIT_CODE_0", ":$?\";tmux w",
   "ait-for -S ", "\"id-0\"", "hi", "TMUX_CMD_EXI", "T_CODE_0:0", "vvv"]

/-- The same transcript split between the `-` and the `S` of the `-S` flag, a
character boundary the pattern does not tolerate. -/
def wrapBadSplit : List String :=
  ["vvv echo hi;echo \"TMUX_CMD_EXIT_CODE_0:$?\";tmux wait-for -",
   "S \"id-0\"", "hi", "TMUX_CMD_EXIT_CODE_0:0", "vvv"]

/-- A transcript whose cleaned form is marker-free, for the idempotence
witness. -/
def idemInput : List String :=
  ["p echo hi;echo \"TMUX_CMD_EXIT_CODE_0:$?\";tmux wait-for -S \"id-0\"",
   "hi", "TMUX_CMD_EXIT_CODE_0:0", "p"]

/-- The lines of a cleaned string, as Python `s.split('\n')` produces them. -/
def linesOfStr (s : String) : List String :=
  (splitOnChar '\n' s.data).map String.mk

/-! Helper lemmas. -/

/-- `obackup` succeeds exactly when one of its branches does. -/
lemma obackup_isSome {α : Type} {a : Option α} {b : Unit → Option α} :
    (obackup a b).isSome = true ↔ a.isSome = true ∨ (b ()).isSome = true := by
  cases a <;> simp [obackup]

/-- If a concatenated pattern matches at a position, its first part matches
there too (with the same fuel). -/
lemma mtch_append :
    ∀ f A B p s ga gb, (mtch f (A ++ B) p s ga gb).isSome = true →
      (mtch f A p s ga gb).isSome = true := by
  intro f
  induction f with
  | zero => intro A B p s ga gb h; simp [mtch] at h
  | succ f ih =>
    intro A B p s ga gb h
    cases A with
    | nil => simp [mtch]
    | cons a A' =>
      cases a with
      | lit c =>
        cases s with
        | nil => simp [mtch] at h
        | cons x s' =>
          simp only [List.cons_append, mtch] at h ⊢
          by_cases hx : x == c
          · simp only [hx, if_true] at h ⊢
            exact ih A' B (some x) s' ga gb h
          · simp [hx] at h
      | ws =>
        cases s with
        | nil =>
          simp only [List.cons_append, mtch] at h ⊢
          exact ih A' B p [] ga gb h
        | cons x s' =>
          simp only [List.cons_append, mtch] at h ⊢
          by_cases hx : pyIsSpace x
          · simp only [hx, if_true] at h ⊢
            rcases obackup_isSome.mp h with h1 | h2
            · exact obackup_isSome.mpr (Or.inl (ih (Atom.ws :: A') B (some x) s' ga gb h1))
            · exact obackup_isSome.mpr (Or.inr (ih A' B p (x :: s') ga gb h2))
          · simp only [hx, if_false] at h ⊢
            exact ih A' B p (x :: s') ga gb h
      | lazy =>
        cases s with
        | nil =>
          simp only [List.cons_append, mtch] at h ⊢
          rcases obackup_isSome.mp h with h1 | h2
          · exact obackup_isSome.mpr (Or.inl (ih A' B p [] ga gb h1))
          · simp at h2
        | cons x s' =>
          simp only [List.cons_append, mtch] at h ⊢
          rcases obackup_isSome.mp h with h1 | h2
          · exact obackup_isSome.mpr (Or.inl (ih A' B p (x :: s') ga gb h1))
          · exact obackup_isSome.mpr (Or.inr (ih (Atom.lazy :: A') B (some x) s' ga gb h2))
      | wsd =>
        cases s with
        | nil =>
          simp only [List.cons_append, mtch] at h ⊢
          exact ih A' B p [] ga gb h
        | cons x s' =>
          simp only [List.cons_append, mtch] at h ⊢
          by_cases hx : pyIsSpace x || x.isDigit
          · simp only [hx, if_true] at h ⊢
            rcases obackup_isSome.mp h with h1 | h2
            · exact obackup_isSome.mpr (Or.inl (ih (Atom.wsd :: A') B (some x) s' ga gb h1))
            · exact obackup_isSome.mpr (Or.inr (ih A' B p (x :: s') ga gb h2))
          · simp only [hx, if_false] at h ⊢
            exact ih A' B p (x :: s') ga gb h
      | bol =>
        simp only [List.cons_append, mtch] at h ⊢
        by_cases hp : p == none || p == some '\n'
        · simp only [hp, if_true] at h ⊢
          exact ih A' B p s ga gb h
        · simp [hp] at h
      | g2open =>
        simp only [List.cons_append, mtch] at h ⊢
        exact ih A' B p s (some s.length) gb h
      | g2close =>
        simp only [List.cons_append, mtch] at h ⊢
        exact ih A' B p s ga (some s.length) h

/-- The atomic block pattern starts with the epilogue pattern. -/
lemma atomicBlockAtoms_decomp :
    atomicBlockAtoms =
      commandAtoms ++ ([Atom.g2open, Atom.lazy, Atom.g2close] ++ outputAtoms) := by
  simp [atomicBlockAtoms, List.append_assoc]

/-- Where no epilogue matches anywhere, the substitution scan is the
identity. -/
lemma scanSub_eq_self :
    ∀ f p s, noEpilogueScan f p s = true → scanSub f p s = s := by
  intro f
  induction f with
  | zero => intro p s _; rfl
  | succ f ih =>
    intro p s h
    simp only [noEpilogueScan] at h
    by_cases hm : (mtch (mfuel s) commandAtoms p s none none).isSome = true
    · rw [if_pos hm] at h
      exact absurd h (by simp)
    · rw [if_neg hm] at h
      have hfull : mtch (mfuel s) atomicBlockAtoms p s none none = none := by
        cases hc : mtch (mfuel s) atomicBlockAtoms p s none none with
        | none => rfl
        | some r =>
          exact absurd
            (mtch_append (mfuel s) commandAtoms
              ([Atom.g2open, Atom.lazy, Atom.g2close] ++ outputAtoms) p s none none
              (by rw [← atomicBlockAtoms_decomp, hc]; rfl)) hm
      simp only [scanSub, hfull]
      cases s with
      | nil => rfl
      | cons x s' =>
        have hrec : noEpilogueScan f (some x) s' = true := h
        show x :: scanSub f (some x) s' = x :: s'
        rw [ih (some x) s' hrec]

/-- Dropping a satisfied prefix twice is the same as dropping it once. -/
lemma dropWhile_dropWhile (p : Char → Bool) :
    ∀ l : List Char, List.dropWhile p (List.dropWhile p l) = List.dropWhile p l := by
  intro l
  induction l with
  | nil => rfl
  | cons a l ih =>
    by_cases hp : p a
    · simp [List.dropWhile_cons, hp, ih]
    · simp [List.dropWhile_cons, hp]

/-- If `dropWhile` fixes a list, it fixes any decomposition's front part. -/
lemma dropWhile_append_self (p : Char → Bool) :
    ∀ t r : List Char, List.dropWhile p (t ++ r) = t ++ r →
      List.dropWhile p t = t := by
  intro t r h
  cases t with
  | nil => rfl
  | cons a t' =>
    by_cases hp : p a
    · exfalso
      rw [List.cons_append, List.dropWhile_cons_of_pos hp] at h
      have hle : (List.dropWhile p (t' ++ r)).length ≤ (t' ++ r).length :=
        (List.dropWhile_sublist _).length_le
      rw [h] at hle
      simp at hle
    · rw [List.dropWhile_cons_of_neg hp]

/-- A list splits into its right-stripped part and the stripped tail. -/
lemma rstripL_append (l : List Char) :
    rstripL l ++ (l.reverse.takeWhile pyIsSpace).reverse = l := by
  have h : List.takeWhile pyIsSpace l.reverse ++ List.dropWhile pyIsSpace l.reverse =
      l.reverse := List.takeWhile_append_dropWhile pyIsSpace l.reverse
  show (List.dropWhile pyIsSpace l.reverse).reverse ++
      (List.takeWhile pyIsSpace l.reverse).reverse = l
  rw [← List.reverse_append, h, List.reverse_reverse]

/-- Left-stripping is idempotent through right-stripping. -/
lemma lstripL_rstripL (m : List Char) (hm : lstripL m = m) :
    lstripL (rstripL m) = rstripL m := by
  apply dropWhile_append_self pyIsSpace (rstripL m) ((m.reverse.takeWhile pyIsSpace).reverse)
  show List.dropWhile pyIsSpace (rstripL m ++ (m.reverse.takeWhile pyIsSpace).reverse) = _
  rw [rstripL_append m]
  exact hm

/-- Right-stripping is idempotent. -/
lemma rstripL_idem (m : List Char) : rstripL (rstripL m) = rstripL m := by
  unfold rstripL
  rw [List.reverse_reverse, dropWhile_dropWhile]

/-- Python `strip` is idempotent. -/
lemma stripL_idem (l : List Char) : stripL (stripL l) = stripL l := by
  show rstripL (lstripL (rstripL (lstripL l))) = rstripL (lstripL l)
  have hm : lstripL (lstripL l) = lstripL l := dropWhile_dropWhile pyIsSpace l
  rw [lstripL_rstripL (lstripL l) hm, rstripL_idem]

/-- Stripping the empty buffer. -/
lemma stripL_nil : stripL [] = [] := rfl

/-- `clean_output` results carry no surrounding whitespace. -/
lemma clean_outputL_stripped (liness : List (List Char)) :
    stripL (clean_outputL liness) = clean_outputL liness := by
  by_cases h : liness.isEmpty
  · simp [clean_outputL, h, stripL_nil]
  · simp [clean_outputL, h, stripL_idem]

/-- Splitting never produces an empty list of pieces. -/
lemma splitOnChar_ne_nil (sep : Char) : ∀ s, splitOnChar sep s ≠ [] := by
  intro s
  cases s with
  | nil => simp [splitOnChar]
  | cons c rest =>
    by_cases hc : c == sep
    · simp [splitOnChar, hc]
    · simp only [splitOnChar, hc, Bool.false_eq_true, if_false]
      cases hr : splitOnChar sep rest <;> simp

/-- Joining after prepending a character to the first piece prepends it to
the joined text. -/
lemma joinNl_cons_head (c : Char) (q : List Char) (qs : List (List Char)) :
    joinNlL ((c :: q) :: qs) = c :: joinNlL (q :: qs) := by
  cases qs with
  | nil => rfl
  | cons q2 qs2 => rfl

/-- Joining after prepending an empty piece prepends a newline. -/
lemma joinNl_cons_nil (q : List Char) (qs : List (List Char)) :
    joinNlL ([] :: q :: qs) = '\n' :: joinNlL (q :: qs) := rfl

/-- Joining the pieces of a newline split restores the string. -/
lemma joinNl_splitNl : ∀ s : List Char, joinNlL (splitOnChar '\n' s) = s := by
  intro s
  induction s with
  | nil => rfl
  | cons c rest ih =>
    obtain ⟨q, qs, hq⟩ := List.exists_cons_of_ne_nil (splitOnChar_ne_nil '\n' rest)
    by_cases hc : c == '\n'
    · have hc' : c = '\n' := by simpa using hc
      subst hc'
      show joinNlL (if (('\n' : Char) == '\n') = true then [] :: splitOnChar '\n' rest
        else _) = '\n' :: rest
      rw [if_pos (by simp), hq, joinNl_cons_nil, ← hq, ih]
    · simp only [splitOnChar, hc, Bool.false_eq_true, if_false]
      rw [hq, joinNl_cons_head, ← hq, ih]

/-- Every sequence number issued from counter `c0` is at least `c0`. -/
lemma dispatch_tokens_seq_ge :
    ∀ n c0 t, t ∈ dispatch_tokens c0 n → c0 ≤ t.sequence := by
  intro n
  induction n with
  | zero => intro c0 t ht; simp [dispatch_tokens] at ht
  | succ m ih =>
    intro c0 t ht
    simp only [dispatch_tokens, List.mem_cons] at ht
    rcases ht with h | h
    · subst h; simp [issue_token]
    · exact Nat.le_of_succ_le (ih (c0 + 1) t h)

/-- The backward scan of `_execute_str` computes the first parseable
second-colon-field among marker lines, with `-1` when none exists. -/
lemma scanExitRev_eq_filterMap (marker : List Char) :
    ∀ l : List (List Char),
      scanExitRev marker l =
        ((l.filterMap fun line =>
            if marker.isPrefixOf (stripL line) then
              ((splitOnChar ':' (stripL line))[1]?).bind pyParseInt
            else none).head?).getD (-1) := by
  intro l
  induction l with
  | nil => simp [scanExitRev]
  | cons line rest ih =>
    by_cases hpref : marker <+: stripL line
    · cases hparse : ((splitOnChar ':' (stripL line))[1]?).bind pyParseInt with
      | some n => simp [scanExitRev, hpref, hparse, List.findSome?_cons]
      | none => simp [scanExitRev, hpref, hparse, ih, List.findSome?_cons]
    · simp [scanExitRev, hpref, ih, List.findSome?_cons]

/-! Claim theorems. -/

/-- Claim C1, counterexample: on the literal four-line round-trip transcript
of spec section 8 — whose epilogue writes the signal emission as `wait -S`
rather than the injected `tmux wait-for -S` — neither sanitizer produces the
claimed result: the regex pattern does not match (the transcript is returned
whole) and the line-based sanitizer consumes the rest of the transcript
looking for the end of a wrapped epilogue. -/
theorem c1_counterexample :
    clean_output roundTripLiteral ≠ "prompt echo bbb\nbbb\nprompt" ∧
    capture_clean_output roundTripLiteral ≠ "prompt echo bbb\nbbb\nprompt" := by
  constructor
  · decide
  · decide

/-- Claim C1 as amended: with the epilogue spelled as the code injects it
(`tmux wait-for -S`), both sanitizers delete the complete epilogue together
with its matching status line, keep the genuine output between them verbatim
and in order, and do so for every occurrence: the corrected round-trip
transcript sanitizes to exactly the claimed three lines, and a transcript
with two sequential wrapped commands has both blocks stripped. -/
theorem c1_round_trip :
    clean_output roundTripConcrete = "prompt echo bbb\nbbb\nprompt" ∧
    capture_clean_output roundTripConcrete = "prompt echo bbb\nbbb\nprompt" ∧
    clean_output multiCommandTranscript = "p echo 1\n1\np echo 2\n2\np" ∧
    capture_clean_output multiCommandTranscript = "p echo 1\n1\np echo 2\n2\np" := by
  refine ⟨by decide, by decide, by decide, by decide⟩

/-- Claim C2, counterexample: the live sanitizer `capture_clean_output` drops
a genuine-output line that begins with the marker keyword and contains a
colon even though no epilogue precedes it anywhere, so such a line is not
returned unchanged. -/
theorem c2_counterexample :
    capture_clean_output ["hello", "TMUX_CMD_EXIT_CODE_99:99"] ≠
      "hello\nTMUX_CMD_EXIT_CODE_99:99" := by
  decide

/-- Claim C2 as amended: for the archived regex sanitizer `clean_output` the
claim holds in full — whenever no syntactically complete epilogue (with its
literal semicolons, quotes, and signal-emit call shape) matches anywhere in
the transcript, the transcript is returned unchanged apart from the final
whitespace strip, so lines merely containing or even beginning with the
marker keyword survive verbatim; the two-line false-positive transcript of
spec section 8 sanitizes to the same two lines under both sanitizers; the
live `capture_clean_output`, however, unconditionally drops lines that begin
(after trimming) with the marker keyword and contain a colon. -/
theorem c2_false_positive_safety :
    (∀ lines : List String,
      noEpilogueAnywhere (joinNlL (lines.map String.data)) = true →
      clean_output lines = stripJoin lines) ∧
    clean_output fpTranscriptLines =
      "echo \"A user string: TMUX_CMD_EXIT_CODE_99:99\"\nA user string: TMUX_CMD_EXIT_CODE_99:99" ∧
    capture_clean_output fpTranscriptLines =
      "echo \"A user string: TMUX_CMD_EXIT_CODE_99:99\"\nA user string: TMUX_CMD_EXIT_CODE_99:99" := by
  refine ⟨?_, by decide, by decide⟩
  intro lines h
  unfold clean_output stripJoin clean_outputL
  by_cases hemp : (lines.map String.data).isEmpty
  · have : lines.map String.data = [] := by simpa [List.isEmpty_iff] using hemp
    rw [if_pos hemp, this]
    rfl
  · rw [if_neg hemp]
    unfold subAtomic
    rw [scanSub_eq_self _ none _ h]

/-- Claim C2, witness: the section-8 false-positive transcript satisfies the
no-epilogue condition and is returned unchanged apart from the strip. -/
theorem c2_witness :
    noEpilogueAnywhere (joinNlL (fpTranscriptLines.map String.data)) = true ∧
    clean_output fpTranscriptLines = stripJoin fpTranscriptLines :=
  ⟨by decide, c2_false_positive_safety.1 fpTranscriptLines (by decide)⟩

/-- Claim C3, counterexample: splitting the fixed logical epilogue between
the `-` and the `S` of its `-S` flag — a legal arbitrary character boundary —
changes the sanitizer's result, because the pattern tolerates line breaks
only inside the tolerant keywords, separators and wildcard spans, so wrap
invariance does not hold for every split point. -/
theorem c3_counterexample :
    clean_output wrapBadSplit ≠ clean_output wrapUnwrapped := by
  decide

/-- Claim C3 as amended: wrap invariance holds for splits at the
whitespace-tolerant boundaries — between characters of the literal keywords
(echo, the marker word, tmux, wait-for), at separator gaps, inside the
wildcard spans and inside the status line — but not inside the punctuation
written without tolerance (such as between `-` and `S`): transcripts wrapped
at tolerated boundaries into two or many physical lines sanitize exactly like
the unwrapped transcript. -/
theorem c3_wrap_invariance :
    clean_output wrapTwoLines = clean_output wrapUnwrapped ∧
    clean_output wrapManyLines = clean_output wrapUnwrapped ∧
    clean_output wrapUnwrapped = "vvv echo hi\nhi\nvvv" := by
  refine ⟨by decide, by decide, by decide⟩

/-- Claim C9: the sanitizer is idempotent on its own output — if the cleaned
result of a transcript contains no remaining injected epilogue, cleaning the
lines of the cleaned result returns it unchanged. -/
theorem c9_idempotence :
    ∀ x : List String,
      noEpilogueAnywhere (clean_output x).data = true →
      clean_output (linesOfStr (clean_output x)) = clean_output x := by
  intro x h
  have hmaps : (linesOfStr (clean_output x)).map String.data =
      splitOnChar '\n' (clean_output x).data := by
    have hid : (String.data ∘ String.mk) = id := funext fun _ => rfl
    simp [linesOfStr, List.map_map, hid]
  show String.mk (clean_outputL ((linesOfStr (clean_output x)).map String.data)) =
    clean_output x
  rw [hmaps]
  have hemp : (splitOnChar '\n' (clean_output x).data).isEmpty = false := by
    rcases hsp : splitOnChar '\n' (clean_output x).data with _ | ⟨q, qs⟩
    · exact absurd hsp (splitOnChar_ne_nil '\n' (clean_output x).data)
    · rfl
  unfold clean_outputL
  rw [hemp]
  simp only [Bool.false_eq_true, if_false]
  rw [joinNl_splitNl]
  unfold subAtomic
  rw [scanSub_eq_self _ none _ h]
  show String.mk (stripL (clean_outputL (x.map String.data))) = clean_output x
  rw [clean_outputL_stripped]
  rfl

/-- Claim C9, witness: a concrete transcript whose cleaned result is
marker-free is a fixed point of the sanitizer. -/
theorem c9_witness :
    noEpilogueAnywhere (clean_output idemInput).data = true ∧
    clean_output (linesOfStr (clean_output idemInput)) = clean_output idemInput :=
  ⟨by decide, c9_idempotence idemInput (by decide)⟩

/-- Claim C4, counterexample: on a marker line with two colons the code
parses the field after the first colon (value 1), not the integer following
the final colon (value 2), so the claim's parsing rule does not describe the
code. -/
theorem c4_counterexample :
    findExitCode ("TMUX_CMD_EXIT_CODE_0".data) ["TMUX_CMD_EXIT_CODE_0:1:2".data] = 1 ∧
    specRecoverFinalColon ("TMUX_CMD_EXIT_CODE_0".data) ["TMUX_CMD_EXIT_CODE_0:1:2".data] =
      some 2 ∧ (1 : Int) ≠ 2 := by
  decide

/-- Claim C4 as amended: after the rendezvous the exit code is the first line,
scanning the transcript from the end backward, whose trimmed text starts with
the marker and whose second colon-separated field parses as an integer; when
no such line exists the sentinel `-1` (unknown) results and the outcome is the
caller-facing continue/abort choice rather than a silent failure. -/
theorem c4_exit_code_recovery :
    ∀ (marker : List Char) (lines : List (List Char)),
      (findExitCode marker lines = (specRecoverSecondField marker lines).getD (-1)) ∧
      (∀ cmd choiceUnknown choiceRejected, findExitCode marker lines = -1 →
        execute_str_decision cmd marker lines choiceUnknown choiceRejected = choiceUnknown) := by
  intro marker lines
  constructor
  · exact scanExitRev_eq_filterMap marker lines.reverse
  · intro cmd cU cR h
    simp [execute_str_decision, h]

/-- Claim C4, witness: a transcript with no marker line gives the unknown
sentinel and the escalation choice decides the outcome. -/
theorem c4_witness :
    execute_str_decision ("ls".data) ("TMUX_CMD_EXIT_CODE_0".data)
      [("no status here".data)] true false = true :=
  (c4_exit_code_recovery ("TMUX_CMD_EXIT_CODE_0".data) [("no status here".data)]).2
    ("ls".data) true false (by decide)

/-- Claim C5: batch commands run strictly in their given order; if every
command succeeds the batch returns success having dispatched exactly the given
commands in order, and the first failing command (escalation resolved to abort
included) makes the batch return failure having dispatched only the commands
up to and including it. -/
theorem c5_batch_order :
    ∀ (exec1 : String → Bool) (cs : List String),
      ((∀ c ∈ cs, exec1 c = true) →
        execute_list_run exec1 (cs.map BatchItem.str) = (true, cs)) ∧
      (∀ pre c post, cs = pre ++ c :: post → (∀ p ∈ pre, exec1 p = true) →
        exec1 c = false →
        execute_list_run exec1 (cs.map BatchItem.str) = (false, pre ++ [c])) := by
  intro exec1 cs
  constructor
  · intro hall
    induction cs with
    | nil => simp [execute_list_run]
    | cons c rest ih =>
      have hc : exec1 c = true := hall c (List.mem_cons_self c rest)
      have hrest := ih fun x hx => hall x (List.mem_cons_of_mem c hx)
      simp [execute_list_run, hc, hrest]
  · intro pre c post hcs hpre hc
    subst hcs
    induction pre with
    | nil => simp [execute_list_run, hc]
    | cons p pre' ih =>
      have hp : exec1 p = true := hpre p (List.mem_cons_self p pre')
      have ih' := ih fun x hx => hpre x (List.mem_cons_of_mem p hx)
      rw [List.cons_append, List.map_cons]
      simp only [execute_list_run, hp, if_true, ih']
      simp

/-- Claim C5, witness: with a batch whose middle command fails, exactly the
first two commands are dispatched in order and the batch fails. -/
theorem c5_witness :
    execute_list_run (fun c => c != "bad")
      [BatchItem.str "a", BatchItem.str "bad", BatchItem.str "z"] = (false, ["a", "bad"]) :=
  (c5_batch_order (fun c => c != "bad") ["a", "bad", "z"]).2 ["a"] "bad" ["z"]
    rfl (by decide) (by decide)

/-- Claim C6: a dispatch that begins always sets the busy flag first and every
dispatch exit path (normal completion, escalation resolved to abort, an
exception during dispatch or result saving) ends with the flag cleared, while
a call arriving with the flag set is rejected immediately without any
dispatch, and the relay handler answers a request arriving while busy with the
failure reply instead of queueing it. -/
theorem c6_busy_flag :
    ∀ busy0 hasPane paneRaises dispatchRaises saveRaises : Bool,
      (busy0 = true →
        (execute_trace busy0 hasPane paneRaises dispatchRaises saveRaises).1 = [Ev.rejectBusy] ∧
        Ev.dispatchCmd ∉ (execute_trace busy0 hasPane paneRaises dispatchRaises saveRaises).1) ∧
      (busy0 = false →
        (execute_trace busy0 hasPane paneRaises dispatchRaises saveRaises).1.head? =
          some Ev.setBusy) ∧
      (Ev.dispatchCmd ∈ (execute_trace busy0 hasPane paneRaises dispatchRaises saveRaises).1 →
        (execute_trace busy0 hasPane paneRaises dispatchRaises saveRaises).2.1 = false ∧
        (execute_trace busy0 hasPane paneRaises dispatchRaises saveRaises).1.getLast? =
          some Ev.clearBusy) ∧
      custom_on_message true = RelayAction.sendFailure ∧
      custom_on_message false = RelayAction.spawnExecute := by
  decide

/-- Claim C6, witness: in a normal non-busy run the dispatch happens and the
flag ends cleared. -/
theorem c6_witness :
    (execute_trace false true false false false).2.1 = false ∧
    (execute_trace false true false false false).1.getLast? = some Ev.clearBusy :=
  ((c6_busy_flag false true false false false).2.2.1 (by decide))

/-- Claim C7: `get_accepted_codes` returns the accepted codes of the first
registered prefix that the trimmed command starts with and the default `[0]`
otherwise; under the default table a `grep`- or `diff`-prefixed command
exiting 1 is a success while exit code 1 of an unregistered command escalates
to the caller's choice. -/
theorem c7_policy :
    (∀ (rules : List (List Char × List Int)) (cmd : List Char),
      lookupAccepted rules cmd =
        ((rules.find? fun r => r.1.isPrefixOf (stripL cmd)).map Prod.snd).getD
          defaultAcceptedCodes) ∧
    get_accepted_codes ("grep -rn pat src".data) = [0, 1] ∧
    get_accepted_codes ("diff a b".data) = [0, 1] ∧
    get_accepted_codes ("ls -l".data) = [0] ∧
    (∀ choiceUnknown choiceRejected,
      execute_str_decision ("grep -rn pat src".data) ("TMUX_CMD_EXIT_CODE_0".data)
        [("TMUX_CMD_EXIT_CODE_0:1".data)] choiceUnknown choiceRejected = true) ∧
    (∀ choiceUnknown choiceRejected,
      execute_str_decision ("ls -l".data) ("TMUX_CMD_EXIT_CODE_0".data)
        [("TMUX_CMD_EXIT_CODE_0:1".data)] choiceUnknown choiceRejected = choiceRejected) := by
  refine ⟨?_, by decide, by decide, by decide, by decide, by decide⟩
  intro rules cmd
  induction rules with
  | nil => simp [lookupAccepted]
  | cons r rest ih =>
    obtain ⟨p, codes⟩ := r
    by_cases h : p.isPrefixOf (stripL cmd)
    · simp [lookupAccepted, List.find?_cons, h]
    · simp [lookupAccepted, List.find?_cons, h, ih]

/-- Claim C8: one token is issued per dispatched command, and across `n`
dispatches the emitted sequence numbers are strictly increasing in dispatch
order, hence pairwise distinct and never reused. -/
theorem c8_token_uniqueness :
    ∀ n c0,
      ((dispatch_tokens c0 n).map SyncToken.sequence).length = n ∧
      List.Pairwise (· < ·) ((dispatch_tokens c0 n).map SyncToken.sequence) ∧
      ((dispatch_tokens c0 n).map SyncToken.sequence).Nodup := by
  intro n
  induction n with
  | zero => intro c0; simp [dispatch_tokens]
  | succ m ih =>
    intro c0
    have hlen := (ih (c0 + 1)).1
    have hpw := (ih (c0 + 1)).2.1
    have hcons : List.Pairwise (· < ·)
        ((dispatch_tokens c0 (m + 1)).map SyncToken.sequence) := by
      simp only [dispatch_tokens, List.map_cons, List.pairwise_cons]
      refine ⟨?_, by simpa [issue_token] using hpw⟩
      intro k hk
      simp only [issue_token, List.mem_map] at hk
      obtain ⟨t, ht, rfl⟩ := hk
      exact Nat.lt_of_succ_le (dispatch_tokens_seq_ge m (c0 + 1) t ht)
    refine ⟨?_, hcons, hcons.imp fun h => Nat.ne_of_lt h⟩
    simp only [dispatch_tokens, List.map_cons, List.length_cons]
    simpa [issue_token] using hlen

/-- Claim C10: `_execute_list` skips a non-string batch element and continues,
and a batch consisting only of non-string elements returns success with no
command dispatched. -/
theorem c10_nonstring_skip :
    ∀ (exec1 : String → Bool) (batch : List BatchItem),
      ((∀ b ∈ batch, b = BatchItem.nonstr) → execute_list_run exec1 batch = (true, [])) ∧
      (∀ rest, execute_list_run exec1 (BatchItem.nonstr :: rest) =
        execute_list_run exec1 rest) := by
  intro exec1 batch
  constructor
  · intro hall
    induction batch with
    | nil => simp [execute_list_run]
    | cons b rest ih =>
      have hb : b = BatchItem.nonstr := hall b (List.mem_cons_self b rest)
      subst hb
      simp [execute_list_run, ih fun x hx => hall x (List.mem_cons_of_mem _ hx)]
  · intro rest
    simp [execute_list_run]

/-- Claim C10, witness: a two-element batch of non-strings succeeds with
nothing dispatched. -/
theorem c10_witness :
    execute_list_run (fun _ => false) [BatchItem.nonstr, BatchItem.nonstr] = (true, []) :=
  (c10_nonstring_skip (fun _ => false) [BatchItem.nonstr, BatchItem.nonstr]).1 (by decide)

end LlmAuto
